import Mathlib

/-!
Verification development for the `mola-slam-gtsam` SLAM backend
(`src/include/mola-slam-gtsam/ASLAM_gtsam.h`).

The repository ships the class declaration `ASLAM_gtsam` together with two
inline member-function bodies (`SLAM_state::at_new_or_last_values` and
`SLAM_state::updateLastCreatedKF`); the remaining member functions are only
declared, so their behaviour is modelled from the specification (`spec.md`),
as marked on each such definition.

Modelling conventions:
* `gtsam::Key`, `mola::id_t`, `mola::fid_t` are `Nat`; fields that may hold
  `INVALID_ID` / `INVALID_TIMESTAMP` are `Option`-valued, `none` standing for
  the invalid sentinel.
* timestamps and the `double` configuration constants are rationals (`ℚ`);
  only order comparisons and scaling of these quantities matter here.
* `gtsam::Values` is an association list from keys to stored values;
  `gtsam::Pose3` is abstracted to a translation triple whose composition is
  componentwise addition (its group structure is irrelevant to the claims).
* the black-box incremental solver (`gtsam::ISAM2::update`) is represented by
  its outcome: `none` for a solve failure, `some vals` for a successful solve
  returning refreshed values.
-/

namespace MolaSlamGtsam

/-- Abstraction of `gtsam::Pose3` / `mrpt::math::TTwist3D`: a translation
triple; composition is modelled as componentwise addition. -/
structure Pose where
  x : ℚ
  y : ℚ
  z : ℚ
deriving DecidableEq, Repr

/-- Pose composition (abstracted). -/
def composePose (a b : Pose) : Pose := ⟨a.x + b.x, a.y + b.y, a.z + b.z⟩

/-- `gtsam::Values`: a finite map from `gtsam::Key` to stored values,
modelled as an association list (first binding wins, as in `std::map`
with distinct keys). -/
abbrev GValues (V : Type) : Type := List (Nat × V)

/-- `gtsam::Values::exists(k)`. -/
def GValues.exists_ {V : Type} (vs : GValues V) (k : Nat) : Bool :=
  (List.lookup k vs).isSome

/-- Exceptions thrown by the modelled gtsam fragment
(`gtsam::ValuesKeyDoesNotExist`). -/
inductive GtsamError where
  | ValuesKeyDoesNotExist (caller : String) (k : Nat)
deriving DecidableEq, Repr

/-- `gtsam::Values::at<T>(k)`: returns the stored value or throws
`ValuesKeyDoesNotExist`. -/
def GValues.at_ {V : Type} (vs : GValues V) (caller : String) (k : Nat) :
    Except GtsamError V :=
  match List.lookup k vs with
  | some v => .ok v
  | none => .error (.ValuesKeyDoesNotExist caller k)

/-- `ASLAM_gtsam::StateVectorType` (header lines 62-69). -/
inductive StateVectorType where
  | SE2
  | SE3
  | SE2Vel
  | SE3Vel
  | Undefined
deriving DecidableEq, Repr

/-- Whether the configured state vector carries a velocity variable
(`SE2Vel` / `SE3Vel` modes, which use the extra velocity key). -/
def StateVectorType.hasVelocity : StateVectorType → Bool
  | .SE2Vel => true
  | .SE3Vel => true
  | _ => false

/-- `ASLAM_gtsam::Parameters` (header lines 71-104), with the defaults the
header declares. -/
structure Parameters where
  state_vector : StateVectorType := .Undefined
  use_incremental_solver : Bool := true
  isam2_additional_update_steps : Int := 0
  isam2_relinearize_threshold : ℚ := 1/10
  isam2_relinearize_skip : Int := 1
  save_trajectory_file_prefix : String := ""
  save_map_at_end : Bool := true
  const_vel_model_std_pos : ℚ := 1/10
  const_vel_model_std_vel : ℚ := 1
  max_interval_between_kfs_for_dynamic_model : ℚ := 5
deriving DecidableEq, Repr

/-- `AdvertiseUpdatedLocalization_Input`: a delivered localization, stored in
the trajectory history as a pose *relative* to a reference keyframe. -/
structure AdvertiseUpdatedLocalization_Input where
  timestamp : ℚ
  reference_kf : Nat
  pose : Pose
deriving DecidableEq, Repr

/-- The kind of a solver-graph factor enqueued by the incorporation layer. -/
inductive FactorKind where
  | priorPose
  | priorVel
  | relativePose
  | dynamicsConstVel
  | smartStereo
  | imu
deriving DecidableEq, Repr

/-- One solver-graph factor: its kind, the set (list) of variable keys it
references, and its noise-model sigmas. For a smart stereo factor the key
list grows as observations are appended. -/
structure GFactor where
  kind : FactorKind
  keys : List Nat
  noise : List ℚ
deriving DecidableEq, Repr

/-- `ASLAM_gtsam::SLAM_state` (header lines 138-212), restricted to the
fields the verified operations touch.  `committed` is the factor graph held
by the incremental solver (`isam2`); `newfactors` / `newvalues` are the
pending buffer; `last_values` is the published estimate. -/
structure SLAM_state where
  params : Parameters
  committed : List GFactor
  newfactors : List GFactor
  newvalues : GValues Pose
  last_values : GValues Pose
  changedSmartFactors : List Nat
  root_kf_id : Option Nat
  last_created_kf_id : Option Nat
  former_last_created_kf_id : Option Nat
  last_created_kf_id_tim : Option ℚ
  created_kfs : List Nat
  next_kf_id : Nat
  trajectory : List (ℚ × AdvertiseUpdatedLocalization_Input)
deriving DecidableEq, Repr

/-- `SLAM_state::at_new_or_last_values` (header lines 153-159): return the
value at key `k` from `last_values` if it exists there, else from
`newvalues`, else throw `ValuesKeyDoesNotExist`. -/
def SLAM_state.at_new_or_last_values (s : SLAM_state) (k : Nat) :
    Except GtsamError Pose :=
  if s.last_values.exists_ k then s.last_values.at_ "at_new_or_last_values" k
  else if s.newvalues.exists_ k then s.newvalues.at_ "at_new_or_last_values" k
  else .error (.ValuesKeyDoesNotExist "at_new_or_last_values" k)

/-- `SLAM_state::updateLastCreatedKF` (header lines 180-184): shift
`last_created_kf_id` into `former_last_created_kf_id` and store the new id. -/
def SLAM_state.updateLastCreatedKF (s : SLAM_state) (id : Option Nat) :
    SLAM_state :=
  { s with
    former_last_created_kf_id := s.last_created_kf_id
    last_created_kf_id := id }

/-- The freshly constructed estimator state: every container empty, every id
field at its `INVALID_ID` / `INVALID_TIMESTAMP` sentinel. -/
def initState (p : Parameters) : SLAM_state :=
  { params := p
    committed := []
    newfactors := []
    newvalues := []
    last_values := []
    changedSmartFactors := []
    root_kf_id := none
    last_created_kf_id := none
    former_last_created_kf_id := none
    last_created_kf_id_tim := none
    created_kfs := []
    next_kf_id := 0
    trajectory := [] }

/-- The internal (pose) key assigned to a keyframe id (an injective
encoding of `KF_gtsam_keys[KF_KEY_POSE]`). -/
def poseKey (id : Nat) : Nat := 2 * id

/-- The internal velocity key assigned to a keyframe id (the
`KF_gtsam_keys[KF_KEY_VEL]` slot, used only in `SE2Vel`/`SE3Vel` mode). -/
def velKey (id : Nat) : Nat := 2 * id + 1

/-- Errors surfaced to the orchestrator by the API calls (spec section 6/7). -/
inductive ApiError where
  | InvalidTimestamp
  | GapTooLarge
  | UnknownVariable
  | SolveFailure
deriving DecidableEq, Repr

/-- Whether a proposed keyframe timestamp is increasing relative to the
timestamp of the last created keyframe (`last_created_kf_id_tim`; the
`INVALID_TIMESTAMP` sentinel accepts any timestamp). -/
def tsIncreasing (s : SLAM_state) (tim : ℚ) : Bool :=
  match s.last_created_kf_id_tim with
  | none => true
  | some t => decide (t < tim)

/-- The initial value given to a regular (non-root) keyframe: the current
estimate of the last created keyframe, propagated as the initial guess. -/
def initialGuess (s : SLAM_state) : Pose :=
  match s.last_created_kf_id with
  | some j => ((List.lookup (poseKey j) s.last_values).orElse
      (fun _ => List.lookup (poseKey j) s.newvalues)).getD ⟨0, 0, 0⟩
  | none => ⟨0, 0, 0⟩

/-- Modelled from the spec: `ASLAM_gtsam::doAddKeyFrame` /
`internal_addKeyFrame_Root` / `internal_addKeyFrame_Regular` (declared in the
header, implementation not in the repository files). Spec sections 4.4 and 6:
fails with `InvalidTimestamp` if the timestamp is not increasing relative to
the last created keyframe; before any prior keyframe exists the new keyframe
becomes root, receives an absolute prior (and a velocity prior in velocity
mode) with initial value the prior's mean; a regular keyframe is added with
only an initial guess.  Returns the fresh variable id and the new state. -/
def doAddKeyFrame (s : SLAM_state) (tim : ℚ) :
    Except ApiError Nat × SLAM_state :=
  if tsIncreasing s tim = false then (.error .InvalidTimestamp, s)
  else
    let id := s.next_kf_id
    if s.root_kf_id.isNone then
      let priorF : GFactor := ⟨.priorPose, [poseKey id], [1/1000]⟩
      let velFs : List GFactor :=
        if s.params.state_vector.hasVelocity then
          [⟨.priorVel, [velKey id], [1/2]⟩] else []
      let velVs : GValues Pose :=
        if s.params.state_vector.hasVelocity then
          [(velKey id, ⟨0, 0, 0⟩)] else []
      let s1 : SLAM_state :=
        { s with
          root_kf_id := some id
          newfactors := s.newfactors ++ [priorF] ++ velFs
          newvalues := s.newvalues ++ [(poseKey id, ⟨0, 0, 0⟩)] ++ velVs
          created_kfs := s.created_kfs ++ [id]
          next_kf_id := id + 1
          last_created_kf_id_tim := some tim }
      (.ok id, s1.updateLastCreatedKF (some id))
    else
      let velVs : GValues Pose :=
        if s.params.state_vector.hasVelocity then
          [(velKey id, ⟨0, 0, 0⟩)] else []
      let s1 : SLAM_state :=
        { s with
          newvalues := s.newvalues ++ [(poseKey id, initialGuess s)] ++ velVs
          created_kfs := s.created_kfs ++ [id]
          next_kf_id := id + 1
          last_created_kf_id_tim := some tim }
      (.ok id, s1.updateLastCreatedKF (some id))

/-- Modelled from the spec: `ASLAM_gtsam::addFactor(const FactorRelativePose3&)`
(declared in the header, implementation not in the repository files).  Spec
section 4.3: one binary factor between the two pose keys, noise model from
the caller-supplied covariance; fails with `UnknownVariable` when a
referenced caller-id is unregistered. -/
def addFactorRelativePose (s : SLAM_state) (a b : Nat) (noise : List ℚ) :
    Except ApiError Nat × SLAM_state :=
  if a ∈ s.created_kfs ∧ b ∈ s.created_kfs then
    (.ok s.newfactors.length,
     { s with newfactors :=
        s.newfactors ++ [⟨.relativePose, [poseKey a, poseKey b], noise⟩] })
  else (.error .UnknownVariable, s)

/-- Modelled from the spec: `ASLAM_gtsam::addFactor(const FactorDynamicsConstVel&)`
(declared in the header, implementation not in the repository files).  Spec
sections 4.3 and 8: rejected with `GapTooLarge` when the elapsed time is
non-positive or exceeds `max_interval_between_kfs_for_dynamic_model`;
otherwise one factor linking (pose, velocity) of the two keyframes is
enqueued, its noise sigmas being the two configured process-noise sigmas
scaled by the elapsed time. -/
def addFactorDynamicsConstVel (s : SLAM_state) (a b : Nat) (dt : ℚ) :
    Except ApiError Nat × SLAM_state :=
  if a ∈ s.created_kfs ∧ b ∈ s.created_kfs then
    if dt ≤ 0 ∨ dt > s.params.max_interval_between_kfs_for_dynamic_model then
      (.error .GapTooLarge, s)
    else
      (.ok s.newfactors.length,
       { s with newfactors := s.newfactors ++
          [⟨.dynamicsConstVel,
            [poseKey a, velKey a, poseKey b, velKey b],
            [s.params.const_vel_model_std_pos * dt,
             s.params.const_vel_model_std_vel * dt]⟩] })
  else (.error .UnknownVariable, s)

/-- Modelled from the spec: creation of a new smart stereo factor observing
keyframe key `k` (part of `addFactor(const SmartFactorStereoProjectionPose&)`,
implementation not in the repository files): one new solver factor enqueued
in the pending buffer. -/
def addSmartFactor (s : SLAM_state) (k : Nat) : SLAM_state :=
  { s with newfactors := s.newfactors ++ [⟨.smartStereo, [k], []⟩] }

/-- Modelled from the spec: a new observation appended to a smart stereo
factor already incorporated in the solver graph at slot `j` (spec section
4.3): the factor's key set grows by the observing keyframe's key and the
slot is recorded in `changedSmartFactors` so the next commit relinearizes
it.  Slots that do not hold a smart stereo factor are untouched. -/
def smartObserveCommitted (s : SLAM_state) (j k : Nat) : SLAM_state :=
  match s.committed[j]? with
  | some f =>
      if f.kind = .smartStereo then
        { s with
          committed := s.committed.set j { f with keys := f.keys ++ [k] }
          changedSmartFactors := s.changedSmartFactors ++ [j] }
      else s
  | none => s

/-- Merge refreshed solver values over the previously published estimate
(bindings from the solve output shadow stale bindings). -/
def mergeValues (upd base : GValues Pose) : GValues Pose :=
  upd ++ base.filter (fun kv => (List.lookup kv.1 upd).isNone)

/-- Modelled from the spec: `ASLAM_gtsam::spinOnce` / `commit()` (declared in
the header, implementation not in the repository files).  Spec section 4.4:
a cheap no-op when the pending buffer is empty and no factor is marked
changed; otherwise the black-box incremental solve runs — on failure the
error is surfaced and nothing is published (all-or-nothing, pending buffer
preserved); on success the solved values are merged into the published
estimate and the pending buffer and changed-set are cleared. -/
def spinOnce (s : SLAM_state) (solveResult : Option (GValues Pose)) :
    Except ApiError Unit × SLAM_state :=
  if s.newfactors.isEmpty ∧ s.newvalues.isEmpty ∧
      s.changedSmartFactors.isEmpty then
    (.ok (), s)
  else
    match solveResult with
    | none => (.error .SolveFailure, s)
    | some vals =>
        (.ok (),
         { s with
           committed := s.committed ++ s.newfactors
           last_values := mergeValues vals s.last_values
           newfactors := []
           newvalues := []
           changedSmartFactors := [] })

/-- Modelled from the spec: `ASLAM_gtsam::doAdvertiseUpdatedLocalization`
(declared in the header, implementation not in the repository files).  Spec
section 3: a delivered localization is appended to the append-only,
time-ordered trajectory history. -/
def doAdvertiseUpdatedLocalization (s : SLAM_state)
    (l : AdvertiseUpdatedLocalization_Input) : SLAM_state :=
  { s with trajectory := s.trajectory ++ [(l.timestamp, l)] }

/-- One API call of the orchestrator-facing interface (spec section 6); a
`commit` carries the black-box solver's outcome for that cycle. -/
inductive Op where
  | addKeyFrame (tim : ℚ)
  | addRelFactor (a b : Nat) (noise : List ℚ)
  | addDynFactor (a b : Nat) (dt : ℚ)
  | addSmart (k : Nat)
  | smartObs (j k : Nat)
  | advertise (l : AdvertiseUpdatedLocalization_Input)
  | commit (solveResult : Option (GValues Pose))

/-- The state transition of one API call (outputs discarded; a failed call
leaves the state as the operation itself left it, i.e. unchanged). -/
def step (s : SLAM_state) : Op → SLAM_state
  | .addKeyFrame tim => (doAddKeyFrame s tim).2
  | .addRelFactor a b noise => (addFactorRelativePose s a b noise).2
  | .addDynFactor a b dt => (addFactorDynamicsConstVel s a b dt).2
  | .addSmart k => addSmartFactor s k
  | .smartObs j k => smartObserveCommitted s j k
  | .advertise l => doAdvertiseUpdatedLocalization s l
  | .commit r => (spinOnce s r).2

/-- Run a sequence of API calls. -/
def run (s : SLAM_state) (ops : List Op) : SLAM_state := ops.foldl step s

/-- All factors of the graph: those already incorporated in the solver plus
the pending buffer. -/
def allFactors (s : SLAM_state) : List GFactor := s.committed ++ s.newfactors

/-- Total number of factors in the graph. -/
def totalFactors (s : SLAM_state) : Nat := (allFactors s).length

/-- Modelled from the spec: `ASLAM_gtsam::reconstruct_whole_path` (declared
`const` in the header, implementation not in the repository files).  Spec
section 4.5: for each trajectory entry, compose its stored relative pose
with the current published value of its anchor keyframe; a pure read. -/
def reconstruct_whole_path (s : SLAM_state) : List (ℚ × Pose) :=
  s.trajectory.map (fun te =>
    (te.1,
     composePose
       ((List.lookup (poseKey te.2.reference_kf) s.last_values).getD ⟨0, 0, 0⟩)
       te.2.pose))

/-- The `reconstruct_whole_path()` call in explicit state-passing form: the
member function is `const`, so the call returns its result and the estimator
state it was invoked on. -/
def reconstruct_whole_path_call (s : SLAM_state) :
    List (ℚ × Pose) × SLAM_state :=
  (reconstruct_whole_path s, s)

/-- The keyframe Identifier Registry (`SLAM_state::mola2gtsam` /
`SLAM_state::gtsam2mola`, header lines 188-194), as the spec's two maps:
caller-id → tuple-of-internal-keys and internal-key → caller-id. -/
structure Registry where
  mola2gtsam : List (Nat × List Nat)
  gtsam2mola : List (Nat × Nat)
deriving DecidableEq, Repr

/-- The empty registry. -/
def Registry.empty : Registry := ⟨[], []⟩

/-- `lookup_keys(caller_id)` of spec section 4.1. -/
def Registry.lookup_keys (r : Registry) (c : Nat) : Option (List Nat) :=
  List.lookup c r.mola2gtsam

/-- `lookup_caller_id(key)` of spec section 4.1. -/
def Registry.lookup_caller_id (r : Registry) (k : Nat) : Option Nat :=
  List.lookup k r.gtsam2mola

/-- Modelled from the spec: `ASLAM_gtsam::mola2gtsam_register_new_kf`
(declared in the header, implementation not in the repository files). Spec
section 4.1, `register(caller_id, key_tuple)`: re-registering an existing
caller-id is a programming-error fault (fatal, nothing is remapped — key
identity must be permanent), likewise a tuple colliding with an already
mapped key; otherwise the caller-id is bound to its key tuple and each key
of the tuple is bound back to the caller-id. -/
def mola2gtsam_register_new_kf (r : Registry) (c : Nat) (ks : List Nat) :
    Registry :=
  if (List.lookup c r.mola2gtsam).isSome ∨
      ks.any (fun k => (List.lookup k r.gtsam2mola).isSome) then r
  else ⟨(c, ks) :: r.mola2gtsam, ks.map (fun k => (k, c)) ++ r.gtsam2mola⟩

/-- Run a sequence of registration requests against the empty registry. -/
def runRegistry (ops : List (Nat × List Nat)) : Registry :=
  ops.foldl (fun r p => mola2gtsam_register_new_kf r p.1 p.2) Registry.empty

/-- One stereo observation fed to a smart factor: the observing keyframe's
pose key and the measured stereo pixel coordinates. -/
structure StereoObs where
  kf_key : Nat
  u_left : ℚ
  u_right : ℚ
  v : ℚ
deriving DecidableEq, Repr

/-- The smart-factor bookkeeping of `SLAM_state` (header lines 146 and
196-207): per landmark id the single running smart factor (its accumulated
observations), the solver-graph slot a factor received when a previous
commit incorporated it, and the `changedSmartFactors` slots to relinearize
at the next commit. -/
structure SmartSys where
  factors : List (Nat × List StereoObs)
  slots : List (Nat × Nat)
  changed : List Nat
deriving DecidableEq, Repr

/-- The smart-factor bookkeeping of a fresh estimator. -/
def SmartSys.empty : SmartSys := ⟨[], [], []⟩

/-- Replace the value bound to `k` in an association list (first binding),
keeping every key in place. -/
def setAssoc {V : Type} : List (Nat × V) → Nat → V → List (Nat × V)
  | [], _, _ => []
  | (k', v') :: rest, k, v =>
      if k' = k then (k', v) :: rest else (k', v') :: setAssoc rest k v

/-- Modelled from the spec:
`ASLAM_gtsam::addFactor(const SmartFactorStereoProjectionPose&)` together
with `onSmartFactorChanged` (declared in the header, implementations not in
the repository files).  Spec section 4.3: one running factor per landmark
id; a new observation appends to the landmark's existing factor rather than
creating a new one, and if that factor was already incorporated in a
previous commit its solver-graph slot is marked changed; the first
observation of a landmark creates its (single) factor. -/
def smartAddObservation (m : SmartSys) (fid : Nat) (o : StereoObs) :
    SmartSys :=
  match List.lookup fid m.factors with
  | some obs =>
      { m with
        factors := setAssoc m.factors fid (obs ++ [o])
        changed :=
          match List.lookup fid m.slots with
          | some slot => m.changed ++ [slot]
          | none => m.changed }
  | none => { m with factors := m.factors ++ [(fid, [o])] }

/-- Run a sequence of smart-factor observations against fresh bookkeeping. -/
def runSmart (ops : List (Nat × StereoObs)) : SmartSys :=
  ops.foldl (fun m p => smartAddObservation m p.1 p.2) SmartSys.empty

/-- How many smart factor objects exist for landmark `fid`. -/
def smartFactorCount (m : SmartSys) (fid : Nat) : Nat :=
  (m.factors.filter (fun p => p.1 == fid)).length

/-- The registry bijection invariant (spec section 8): the two maps are
mutually inverse on all registered entries. -/
def RegistryInv (r : Registry) : Prop :=
  (∀ c ks, r.lookup_keys c = some ks → ∀ k ∈ ks, r.lookup_caller_id k = some c) ∧
  (∀ k c, r.lookup_caller_id k = some c →
    ∃ ks, r.lookup_keys c = some ks ∧ k ∈ ks)

/-- Well-formedness of keyframe id allocation: every created id is below the
allocator and no id was handed out twice. -/
def KfIdsOk (s : SLAM_state) : Prop :=
  (∀ i ∈ s.created_kfs, i < s.next_kf_id) ∧ s.created_kfs.Nodup

/-- The gauge-fixing invariant: with no keyframe there is no root; once
keyframes exist, the first created one is the root and its absolute prior
(plus, in velocity mode, its velocity prior) is in the graph. -/
def RootOk (s : SLAM_state) : Prop :=
  (s.created_kfs = [] ↔ s.root_kf_id = none) ∧
  ∀ id0, s.created_kfs.head? = some id0 →
    s.root_kf_id = some id0 ∧
    (∃ f ∈ allFactors s, f.kind = .priorPose ∧ f.keys = [poseKey id0]) ∧
    (s.params.state_vector.hasVelocity = true →
      ∃ f ∈ allFactors s, f.kind = .priorVel ∧ f.keys = [velKey id0])

/-- A small concrete estimator state with two registered keyframes, used to
instantiate theorems with hypotheses. -/
def sampleState : SLAM_state :=
  { initState {} with created_kfs := [0, 1], next_kf_id := 2 }

/-- The append-only ordering between estimator states (spec sections 3 and
8): the total factor count never decreases, no keyframe is deleted, and
every factor already incorporated in the solver graph keeps its slot, its
kind, and (at least) its variable keys — a smart factor's key set may only
grow. -/
def AppendOnlyLe (s s' : SLAM_state) : Prop :=
  totalFactors s ≤ totalFactors s' ∧
  s.created_kfs <+: s'.created_kfs ∧
  s.committed.length ≤ s'.committed.length ∧
  ∀ (i : Nat) (f : GFactor), s.committed[i]? = some f →
    ∃ f' : GFactor, s'.committed[i]? = some f' ∧ f'.kind = f.kind ∧
      f.keys <+: f'.keys

/-! ## Helper lemmas -/

theorem lookup_cons_self {V : Type} (k : Nat) (v : V) (l : List (Nat × V)) :
    List.lookup k ((k, v) :: l) = some v := by
  simp [List.lookup]

theorem lookup_cons_ne {V : Type} {a k : Nat} (v : V) (l : List (Nat × V))
    (h : a ≠ k) : List.lookup a ((k, v) :: l) = List.lookup a l := by
  simp [List.lookup, beq_false_of_ne h]

theorem lookup_append {V : Type} (a : Nat) (l₁ l₂ : List (Nat × V)) :
    List.lookup a (l₁ ++ l₂) =
      (List.lookup a l₁).orElse (fun _ => List.lookup a l₂) := by
  induction l₁ with
  | nil => simp [List.lookup]
  | cons p rest ih =>
    obtain ⟨k, v⟩ := p
    by_cases h : a = k
    · subst h; simp [List.lookup]
    · rw [List.cons_append]
      simp only [List.lookup, beq_false_of_ne h, ih]

theorem lookup_map_pair (c : Nat) (ks : List Nat) (k : Nat) :
    List.lookup k (ks.map (fun k' => (k', c))) =
      if k ∈ ks then some c else none := by
  induction ks with
  | nil => simp [List.lookup]
  | cons k' rest ih =>
    by_cases h : k = k'
    · subst h; simp [List.lookup]
    · simp only [List.map_cons, lookup_cons_ne _ _ h, ih, List.mem_cons]
      simp [h]

/-! ## Claim C10 — `updateLastCreatedKF` frame effect -/

/-- Claim C10: after `updateLastCreatedKF id`, `last_created_kf_id` equals
`id` and `former_last_created_kf_id` equals the value `last_created_kf_id`
held immediately before the call; no other field of `SLAM_state` is
modified. -/
theorem C10_updateLastCreatedKF_shift (s : SLAM_state) (id : Option Nat) :
    (s.updateLastCreatedKF id).last_created_kf_id = id ∧
    (s.updateLastCreatedKF id).former_last_created_kf_id =
      s.last_created_kf_id ∧
    (s.updateLastCreatedKF id).params = s.params ∧
    (s.updateLastCreatedKF id).committed = s.committed ∧
    (s.updateLastCreatedKF id).newfactors = s.newfactors ∧
    (s.updateLastCreatedKF id).newvalues = s.newvalues ∧
    (s.updateLastCreatedKF id).last_values = s.last_values ∧
    (s.updateLastCreatedKF id).changedSmartFactors = s.changedSmartFactors ∧
    (s.updateLastCreatedKF id).root_kf_id = s.root_kf_id ∧
    (s.updateLastCreatedKF id).last_created_kf_id_tim =
      s.last_created_kf_id_tim ∧
    (s.updateLastCreatedKF id).created_kfs = s.created_kfs ∧
    (s.updateLastCreatedKF id).next_kf_id = s.next_kf_id ∧
    (s.updateLastCreatedKF id).trajectory = s.trajectory := by
  refine ⟨rfl, rfl, rfl, rfl, rfl, rfl, rfl, rfl, rfl, rfl, rfl, rfl, rfl⟩

/-! ## Claim C1 — commit atomicity on solve failure -/

/-- Claim C1: when the underlying solve fails during `commit()` (`spinOnce`),
the published estimate `last_values` after the call is identical to before,
and the pending buffer of new factors and new initial values is preserved —
indeed the whole estimator state is unchanged, so no partial state is ever
published. -/
theorem C1_commit_atomicity (s : SLAM_state) :
    (spinOnce s none).2.last_values = s.last_values ∧
    (spinOnce s none).2.newfactors = s.newfactors ∧
    (spinOnce s none).2.newvalues = s.newvalues ∧
    (spinOnce s none).2 = s := by
  have h : (spinOnce s none).2 = s := by
    unfold spinOnce
    split
    · rfl
    · rfl
  exact ⟨by rw [h], by rw [h], by rw [h], h⟩

/-! ## Claim C7 — trajectory reconstruction is a pure read -/

/-- Claim C7: `reconstruct_whole_path` is a pure, deterministic read: two
calls with no intervening state mutation return identical output, and the
call leaves every component of the estimator state (pending buffer,
published estimate, trajectory history, keyframe registry data) unchanged. -/
theorem C7_reconstruct_whole_path_pure (s : SLAM_state) :
    (reconstruct_whole_path_call ((reconstruct_whole_path_call s).2)).1 =
      (reconstruct_whole_path_call s).1 ∧
    (reconstruct_whole_path_call s).2 = s ∧
    (reconstruct_whole_path_call s).2.newfactors = s.newfactors ∧
    (reconstruct_whole_path_call s).2.newvalues = s.newvalues ∧
    (reconstruct_whole_path_call s).2.last_values = s.last_values ∧
    (reconstruct_whole_path_call s).2.trajectory = s.trajectory ∧
    (reconstruct_whole_path_call s).2.created_kfs = s.created_kfs := by
  refine ⟨rfl, rfl, rfl, rfl, rfl, rfl, rfl⟩

/-! ## Claim C9 — value lookup precedence in `at_new_or_last_values` -/

/-- Claim C9: `at_new_or_last_values k` returns the value stored in
`last_values` whenever `k` exists there (even if `k` also exists in
`newvalues`), otherwise the value stored in `newvalues`, and it throws
`ValuesKeyDoesNotExist` exactly when `k` exists in neither. -/
theorem C9_at_new_or_last_values_precedence (s : SLAM_state) (k : Nat) :
    (∀ v, List.lookup k s.last_values = some v →
      s.at_new_or_last_values k = .ok v) ∧
    (List.lookup k s.last_values = none →
      ∀ v, List.lookup k s.newvalues = some v →
        s.at_new_or_last_values k = .ok v) ∧
    (s.at_new_or_last_values k =
        .error (.ValuesKeyDoesNotExist "at_new_or_last_values" k) ↔
      List.lookup k s.last_values = none ∧
        List.lookup k s.newvalues = none) := by
  refine ⟨?_, ?_, ?_⟩
  · intro v hv
    simp [SLAM_state.at_new_or_last_values, GValues.exists_, GValues.at_, hv]
  · intro h v hv
    simp [SLAM_state.at_new_or_last_values, GValues.exists_, GValues.at_,
      h, hv]
  · cases h1 : List.lookup k s.last_values with
    | some v =>
      simp [SLAM_state.at_new_or_last_values, GValues.exists_, GValues.at_,
        h1]
    | none =>
      cases h2 : List.lookup k s.newvalues with
      | some v =>
        simp [SLAM_state.at_new_or_last_values, GValues.exists_,
          GValues.at_, h1, h2]
      | none =>
        simp [SLAM_state.at_new_or_last_values, GValues.exists_,
          GValues.at_, h1, h2]

/-! ## Claim C3 — dynamics gap policy -/

/-- Claim C3: a constant-velocity dynamics factor between two registered
keyframes with elapsed time `dt` is rejected with `GapTooLarge` (leaving the
state unchanged) when `dt ≤ 0` or
`dt > max_interval_between_kfs_for_dynamic_model`; for
`0 < dt ≤` that maximum it is accepted, producing exactly one solver factor,
whose noise model is `const_vel_model_std_pos` and `const_vel_model_std_vel`
scaled by `dt`. -/
theorem C3_dynamics_gap_policy (s : SLAM_state) (a b : Nat) (dt : ℚ)
    (ha : a ∈ s.created_kfs) (hb : b ∈ s.created_kfs) :
    ((dt ≤ 0 ∨ dt > s.params.max_interval_between_kfs_for_dynamic_model) →
      addFactorDynamicsConstVel s a b dt = (.error .GapTooLarge, s)) ∧
    (0 < dt → dt ≤ s.params.max_interval_between_kfs_for_dynamic_model →
      addFactorDynamicsConstVel s a b dt =
        (.ok s.newfactors.length,
         { s with newfactors := s.newfactors ++
            [⟨.dynamicsConstVel,
              [poseKey a, velKey a, poseKey b, velKey b],
              [s.params.const_vel_model_std_pos * dt,
               s.params.const_vel_model_std_vel * dt]⟩] })) := by
  constructor
  · intro hgap
    simp only [addFactorDynamicsConstVel, if_pos (And.intro ha hb)]
    rw [if_pos hgap]
  · intro h1 h2
    simp only [addFactorDynamicsConstVel, if_pos (And.intro ha hb)]
    rw [if_neg]
    push_neg
    exact ⟨h1, h2⟩

/-- Instantiation of claim C3 at a concrete state and inputs: with the
default maximum gap of 5, an elapsed time of 6 is rejected with
`GapTooLarge` and the state is unchanged. -/
theorem C3_dynamics_gap_policy_witness :
    addFactorDynamicsConstVel sampleState 0 1 6 =
      (.error .GapTooLarge, sampleState) :=
  (C3_dynamics_gap_policy sampleState 0 1 6 (by decide) (by decide)).1
    (Or.inr (by norm_num [sampleState, initState]))

/-! ## Claim C2 — registry bijection -/

theorem empty_registry_inv : RegistryInv Registry.empty := by
  constructor
  · intro c ks hks
    simp [Registry.lookup_keys, Registry.empty, List.lookup] at hks
  · intro k c hkc
    simp [Registry.lookup_caller_id, Registry.empty, List.lookup] at hkc

theorem register_new_kf_preserves_inv (r : Registry) (c : Nat)
    (ks : List Nat) (h : RegistryInv r) :
    RegistryInv (mola2gtsam_register_new_kf r c ks) := by
  obtain ⟨inv1, inv2⟩ := h
  unfold mola2gtsam_register_new_kf
  split
  · exact ⟨inv1, inv2⟩
  · rename_i hcond
    rw [not_or] at hcond
    obtain ⟨hc, hk⟩ := hcond
    have hc' : List.lookup c r.mola2gtsam = none := by
      cases hres : List.lookup c r.mola2gtsam with
      | none => rfl
      | some v => rw [hres] at hc; simp at hc
    have hk' : ∀ k ∈ ks, List.lookup k r.gtsam2mola = none := by
      intro k hkmem
      cases hres : List.lookup k r.gtsam2mola with
      | none => rfl
      | some v =>
        exfalso
        apply hk
        rw [List.any_eq_true]
        exact ⟨k, hkmem, by rw [hres]; rfl⟩
    constructor
    · intro c' ks' hks' k hkmem
      simp only [Registry.lookup_keys] at hks'
      simp only [Registry.lookup_caller_id]
      by_cases hcc : c' = c
      · subst hcc
        rw [lookup_cons_self] at hks'
        injection hks' with hks'
        subst hks'
        rw [lookup_append, lookup_map_pair, if_pos hkmem]
        rfl
      · rw [lookup_cons_ne _ _ hcc] at hks'
        have hold : r.lookup_caller_id k = some c' :=
          inv1 c' ks' hks' k hkmem
        have hkns : k ∉ ks := by
          intro hkin
          have := hk' k hkin
          simp only [Registry.lookup_caller_id] at hold
          rw [this] at hold
          exact Option.noConfusion hold
        rw [lookup_append, lookup_map_pair, if_neg hkns]
        simpa [Registry.lookup_caller_id] using hold
    · intro k c' hlk
      simp only [Registry.lookup_caller_id] at hlk
      rw [lookup_append, lookup_map_pair] at hlk
      by_cases hkk : k ∈ ks
      · rw [if_pos hkk] at hlk
        have hcc : c' = c := by
          have h3 : some c = some c' := hlk
          injection h3 with h3
          exact h3.symm
        rw [hcc]
        refine ⟨ks, ?_, hkk⟩
        simp only [Registry.lookup_keys]
        exact lookup_cons_self c ks r.mola2gtsam
      · rw [if_neg hkk] at hlk
        have hlk2 : List.lookup k r.gtsam2mola = some c' := hlk
        obtain ⟨ks', hks', hmem⟩ := inv2 k c' hlk2
        have hne : c' ≠ c := by
          intro hE
          subst hE
          simp only [Registry.lookup_keys] at hks'
          rw [hc'] at hks'
          exact Option.noConfusion hks'
        refine ⟨ks', ?_, hmem⟩
        simp only [Registry.lookup_keys] at hks' ⊢
        rw [lookup_cons_ne _ _ hne]
        exact hks'

theorem runRegistry_inv (ops : List (Nat × List Nat)) :
    RegistryInv (runRegistry ops) := by
  suffices h : ∀ r, RegistryInv r →
      RegistryInv (ops.foldl
        (fun r p => mola2gtsam_register_new_kf r p.1 p.2) r) by
    exact h Registry.empty empty_registry_inv
  induction ops with
  | nil => intro r hr; exact hr
  | cons p rest ih =>
    intro r hr
    exact ih _ (register_new_kf_preserves_inv r p.1 p.2 hr)

/-- Claim C2: after every sequence of registration operations, the maps
`mola2gtsam` and `gtsam2mola` are mutually inverse on all registered
entries: looking up a registered caller-id's key tuple and reverse-looking-up
any key of that tuple returns the original caller-id, and every internal key
produced by a registration reverse-looks-up to the caller-id whose tuple
contains it. -/
theorem C2_registry_bijection (ops : List (Nat × List Nat)) :
    (∀ c ks, (runRegistry ops).lookup_keys c = some ks →
      ∀ k ∈ ks, (runRegistry ops).lookup_caller_id k = some c) ∧
    (∀ k c, (runRegistry ops).lookup_caller_id k = some c →
      ∃ ks, (runRegistry ops).lookup_keys c = some ks ∧ k ∈ ks) :=
  runRegistry_inv ops

/-! ## Claim C5 — smart-factor uniqueness and change marking -/

theorem setAssoc_lookup_self {V : Type} (l : List (Nat × V)) (k : Nat)
    (v : V) :
    List.lookup k (setAssoc l k v) = (List.lookup k l).map (fun _ => v) := by
  induction l with
  | nil => simp [setAssoc, List.lookup]
  | cons p rest ih =>
    obtain ⟨k', v'⟩ := p
    by_cases h : k' = k
    · subst h
      simp [setAssoc, lookup_cons_self]
    · have hne : k ≠ k' := fun hE => h hE.symm
      simp only [setAssoc, if_neg h, lookup_cons_ne _ _ hne, ih]

theorem setAssoc_lookup_ne {V : Type} (l : List (Nat × V)) {g k : Nat}
    (v : V) (h : g ≠ k) :
    List.lookup g (setAssoc l k v) = List.lookup g l := by
  induction l with
  | nil => simp [setAssoc]
  | cons p rest ih =>
    obtain ⟨k', v'⟩ := p
    by_cases hk : k' = k
    · subst hk
      have hred : setAssoc ((k', v') :: rest) k' v = (k', v) :: rest := by
        simp [setAssoc]
      rw [hred, lookup_cons_ne _ _ h, lookup_cons_ne _ _ h]
    · by_cases hg : g = k'
      · subst hg
        simp only [setAssoc, if_neg hk, lookup_cons_self]
      · simp only [setAssoc, if_neg hk, lookup_cons_ne _ _ hg, ih]

theorem setAssoc_filter_length {V : Type} (l : List (Nat × V)) (k : Nat)
    (v : V) (g : Nat) :
    ((setAssoc l k v).filter (fun p => p.1 == g)).length =
      (l.filter (fun p => p.1 == g)).length := by
  induction l with
  | nil => simp [setAssoc]
  | cons p rest ih =>
    obtain ⟨k', v'⟩ := p
    by_cases hk : k' = k
    · subst hk
      by_cases hg : k' == g
      · simp [setAssoc, List.filter, hg]
      · simp [setAssoc, List.filter, hg]
    · by_cases hg : k' == g
      · simp [setAssoc, if_neg hk, List.filter, hg, ih]
      · simp [setAssoc, if_neg hk, List.filter, hg, ih]

theorem smartAdd_count (m : SmartSys) (fid : Nat) (o : StereoObs) (g : Nat) :
    smartFactorCount (smartAddObservation m fid o) g =
      smartFactorCount m g +
        (if (List.lookup fid m.factors) = none ∧ fid = g then 1 else 0) := by
  unfold smartFactorCount smartAddObservation
  cases hf : List.lookup fid m.factors with
  | some obs =>
    simp only [setAssoc_filter_length]
    simp
  | none =>
    simp only [List.filter_append, List.length_append]
    by_cases hg : fid = g
    · subst hg
      simp [List.filter]
    · have : ¬((fid == g) = true) := by simpa using hg
      simp [List.filter, this, hg]

theorem smartAdd_lookup_isSome (m : SmartSys) (fid g : Nat) (o : StereoObs) :
    (List.lookup g (smartAddObservation m fid o).factors).isSome =
      ((List.lookup g m.factors).isSome || (g == fid)) := by
  unfold smartAddObservation
  cases hf : List.lookup fid m.factors with
  | some obs =>
    by_cases hg : g = fid
    · subst hg
      simp [setAssoc_lookup_self, hf]
    · simp only [setAssoc_lookup_ne _ _ hg]
      have : (g == fid) = false := by simpa using hg
      simp [this]
  | none =>
    by_cases hg : g = fid
    · subst hg
      rw [lookup_append, hf]
      simp [lookup_cons_self]
    · rw [lookup_append]
      have hcons : List.lookup g [(fid, [o])] = none := by
        rw [lookup_cons_ne _ _ hg]; rfl
      rw [hcons]
      have : (g == fid) = false := by simpa using hg
      cases List.lookup g m.factors <;> simp [this]

theorem runSmart_count (ops : List (Nat × StereoObs)) (g : Nat) :
    smartFactorCount (runSmart ops) g =
      if (List.lookup g (runSmart ops).factors).isSome = true then 1
      else 0 := by
  suffices h : ∀ m : SmartSys,
      (∀ g', smartFactorCount m g' =
        if (List.lookup g' m.factors).isSome = true then 1 else 0) →
      ∀ g', smartFactorCount
          (ops.foldl (fun m p => smartAddObservation m p.1 p.2) m) g' =
        if (List.lookup g'
            (ops.foldl (fun m p => smartAddObservation m p.1 p.2) m).factors
            ).isSome = true then 1 else 0 by
    refine h SmartSys.empty ?_ g
    intro g'
    simp [smartFactorCount, SmartSys.empty, List.lookup]
  induction ops with
  | nil => intro m hm g'; exact hm g'
  | cons p rest ih =>
    intro m hm g'
    refine ih (smartAddObservation m p.1 p.2) ?_ g'
    intro g''
    rw [smartAdd_count, smartAdd_lookup_isSome, hm g'']
    by_cases hg : g'' = p.1
    · subst hg
      cases hf : List.lookup p.1 m.factors with
      | some obs => simp [hf]
      | none => simp [hf]
    · have h1 : (g'' == p.1) = false := by simpa using hg
      have h2 : ¬(List.lookup p.1 m.factors = none ∧ p.1 = g'') := by
        intro hE; exact hg hE.2.symm
      simp only [h1, Bool.or_false, if_neg h2, Nat.add_zero]

theorem runSmart_lookup_mem (ops : List (Nat × StereoObs)) (g : Nat) :
    (List.lookup g (runSmart ops).factors).isSome = true ↔
      g ∈ ops.map Prod.fst := by
  suffices h : ∀ m : SmartSys,
      ((List.lookup g
          (ops.foldl (fun m p => smartAddObservation m p.1 p.2) m).factors
          ).isSome = true ↔
        (List.lookup g m.factors).isSome = true ∨ g ∈ ops.map Prod.fst) by
    simp only [runSmart]
    rw [h SmartSys.empty]
    simp [SmartSys.empty, List.lookup]
  induction ops with
  | nil => intro m; simp
  | cons p rest ih =>
    intro m
    simp only [List.foldl_cons, List.map_cons, List.mem_cons]
    rw [ih (smartAddObservation m p.1 p.2), smartAdd_lookup_isSome]
    constructor
    · intro hc
      rcases hc with hc | hc
      · rcases Bool.or_eq_true_iff.mp hc with hc | hc
        · exact Or.inl hc
        · exact Or.inr (Or.inl (by simpa using hc))
      · exact Or.inr (Or.inr hc)
    · intro hc
      rcases hc with hc | hc | hc
      · exact Or.inl (Bool.or_eq_true_iff.mpr (Or.inl hc))
      · exact Or.inl (Bool.or_eq_true_iff.mpr (Or.inr (by simpa using hc)))
      · exact Or.inr hc

/-- Claim C5: per landmark id, exactly one smart factor object exists for
the landmark's lifetime (the per-landmark factor count is 1 once observed,
0 before); a new observation of an already-tracked landmark appends to the
existing factor rather than creating a new one, leaves every other
landmark's factor untouched, and if the mutated factor was already
incorporated in a previous commit its recorded solver-graph slot is marked
changed for relinearization. -/
theorem C5_smart_factor_uniqueness :
    (∀ (ops : List (Nat × StereoObs)) (fid : Nat),
      smartFactorCount (runSmart ops) fid =
        if fid ∈ ops.map Prod.fst then 1 else 0) ∧
    (∀ (m : SmartSys) (fid : Nat) (o : StereoObs) (obs : List StereoObs),
      List.lookup fid m.factors = some obs →
        List.lookup fid (smartAddObservation m fid o).factors =
          some (obs ++ [o])) ∧
    (∀ (m : SmartSys) (fid : Nat) (o : StereoObs) (obs : List StereoObs)
        (slot : Nat),
      List.lookup fid m.factors = some obs →
        List.lookup fid m.slots = some slot →
          slot ∈ (smartAddObservation m fid o).changed) ∧
    (∀ (m : SmartSys) (fid fid' : Nat) (o : StereoObs), fid' ≠ fid →
      List.lookup fid' (smartAddObservation m fid o).factors =
        List.lookup fid' m.factors) := by
  refine ⟨?_, ?_, ?_, ?_⟩
  · intro ops fid
    rw [runSmart_count]
    by_cases hmem : fid ∈ ops.map Prod.fst
    · rw [if_pos ((runSmart_lookup_mem ops fid).mpr hmem), if_pos hmem]
    · rw [if_neg (fun hE => hmem ((runSmart_lookup_mem ops fid).mp hE)),
        if_neg hmem]
  · intro m fid o obs hobs
    simp only [smartAddObservation, hobs]
    rw [setAssoc_lookup_self, hobs]
    rfl
  · intro m fid o obs slot hobs hslot
    simp only [smartAddObservation, hobs, hslot]
    exact List.mem_append_right _ (List.mem_singleton.mpr rfl)
  · intro m fid fid' o hne
    unfold smartAddObservation
    cases hf : List.lookup fid m.factors with
    | some obs => simpa using setAssoc_lookup_ne m.factors _ hne
    | none =>
      simp only
      rw [lookup_append]
      have hcons : List.lookup fid' [(fid, [o])] = none := by
        rw [lookup_cons_ne _ _ hne]; rfl
      rw [hcons]
      cases List.lookup fid' m.factors <;> rfl

/-! ## Claim C6 — timestamp monotonicity and fresh keyframe ids -/

theorem doAddKeyFrame_spec (s : SLAM_state) (tim : ℚ) :
    (tsIncreasing s tim = false ∧
      doAddKeyFrame s tim = (.error .InvalidTimestamp, s)) ∨
    (tsIncreasing s tim = true ∧
      (doAddKeyFrame s tim).1 = .ok s.next_kf_id ∧
      (doAddKeyFrame s tim).2.created_kfs = s.created_kfs ++ [s.next_kf_id] ∧
      (doAddKeyFrame s tim).2.next_kf_id = s.next_kf_id + 1 ∧
      (doAddKeyFrame s tim).2.last_created_kf_id_tim = some tim ∧
      (doAddKeyFrame s tim).2.committed = s.committed ∧
      (doAddKeyFrame s tim).2.params = s.params ∧
      ∃ fs, (doAddKeyFrame s tim).2.newfactors = s.newfactors ++ fs) := by
  by_cases hts : tsIncreasing s tim = false
  · left
    refine ⟨hts, ?_⟩
    unfold doAddKeyFrame
    rw [if_pos hts]
  · right
    have hts' : tsIncreasing s tim = true := by
      cases hv : tsIncreasing s tim
      · exact absurd hv hts
      · rfl
    refine ⟨hts', ?_⟩
    unfold doAddKeyFrame
    rw [if_neg hts]
    by_cases hroot : s.root_kf_id.isNone
    · rw [if_pos hroot]
      refine ⟨rfl, rfl, rfl, rfl, rfl, rfl, ?_⟩
      dsimp only
      exact ⟨_, List.append_assoc _ _ _⟩
    · rw [if_neg hroot]
      refine ⟨rfl, rfl, rfl, rfl, rfl, rfl, ?_⟩
      dsimp only
      exact ⟨[], (List.append_nil _).symm⟩

theorem initState_KfIdsOk (p : Parameters) : KfIdsOk (initState p) := by
  constructor
  · intro i hi
    simp [initState] at hi
  · simp [initState]

theorem step_preserves_KfIdsOk (s : SLAM_state) (op : Op) (h : KfIdsOk s) :
    KfIdsOk (step s op) := by
  obtain ⟨h1, h2⟩ := h
  cases op with
  | addKeyFrame tim =>
    show KfIdsOk (doAddKeyFrame s tim).2
    rcases doAddKeyFrame_spec s tim with ⟨_, heq⟩ | ⟨_, _, hc, hn, _⟩
    · rw [heq]
      exact ⟨h1, h2⟩
    · constructor
      · intro i hi
        rw [hc] at hi
        rw [hn]
        rcases List.mem_append.mp hi with hmem | hmem
        · exact Nat.lt_succ_of_lt (h1 i hmem)
        · rw [List.mem_singleton.mp hmem]
          exact Nat.lt_succ_self _
      · rw [hc, List.nodup_append]
        refine ⟨h2, List.nodup_singleton _, ?_⟩
        intro a ha hb
        rw [List.mem_singleton.mp hb] at ha
        exact absurd (h1 _ ha) (lt_irrefl _)
  | addRelFactor a b noise =>
    show KfIdsOk (addFactorRelativePose s a b noise).2
    unfold addFactorRelativePose
    split
    · exact ⟨h1, h2⟩
    · exact ⟨h1, h2⟩
  | addDynFactor a b dt =>
    show KfIdsOk (addFactorDynamicsConstVel s a b dt).2
    unfold addFactorDynamicsConstVel
    split
    · split
      · exact ⟨h1, h2⟩
      · exact ⟨h1, h2⟩
    · exact ⟨h1, h2⟩
  | addSmart k =>
    exact ⟨h1, h2⟩
  | smartObs j k =>
    show KfIdsOk (smartObserveCommitted s j k)
    unfold smartObserveCommitted
    split
    · split
      · exact ⟨h1, h2⟩
      · exact ⟨h1, h2⟩
    · exact ⟨h1, h2⟩
  | advertise l =>
    exact ⟨h1, h2⟩
  | commit r =>
    show KfIdsOk (spinOnce s r).2
    unfold spinOnce
    split
    · exact ⟨h1, h2⟩
    · cases r with
      | none => exact ⟨h1, h2⟩
      | some vals => exact ⟨h1, h2⟩

theorem run_preserves_KfIdsOk (s : SLAM_state) (ops : List Op)
    (h : KfIdsOk s) : KfIdsOk (run s ops) := by
  induction ops generalizing s with
  | nil => exact h
  | cons op rest ih => exact ih (step s op) (step_preserves_KfIdsOk s op h)

/-- Claim C6: a `doAddKeyFrame` call whose timestamp is not increasing
relative to the timestamp of the last created keyframe fails with
`InvalidTimestamp` and creates no keyframe (the state is unchanged); a call
with an increasing timestamp returns a fresh variable id never used for any
previous keyframe, and ids are never reused (the created-keyframe list stays
duplicate-free). -/
theorem C6_timestamp_monotonicity (p : Parameters) (ops : List Op)
    (tim : ℚ) :
    (tsIncreasing (run (initState p) ops) tim = false →
      doAddKeyFrame (run (initState p) ops) tim =
        (.error .InvalidTimestamp, run (initState p) ops)) ∧
    (tsIncreasing (run (initState p) ops) tim = true →
      (doAddKeyFrame (run (initState p) ops) tim).1 =
        .ok (run (initState p) ops).next_kf_id ∧
      (run (initState p) ops).next_kf_id ∉
        (run (initState p) ops).created_kfs ∧
      (doAddKeyFrame (run (initState p) ops) tim).2.created_kfs =
        (run (initState p) ops).created_kfs ++
          [(run (initState p) ops).next_kf_id]) ∧
    (run (initState p) ops).created_kfs.Nodup := by
  obtain ⟨h1, h2⟩ := run_preserves_KfIdsOk (initState p) ops
    (initState_KfIdsOk p)
  refine ⟨?_, ?_, h2⟩
  · intro hts
    rcases doAddKeyFrame_spec (run (initState p) ops) tim with
      ⟨_, heq⟩ | ⟨hts', _⟩
    · exact heq
    · rw [hts] at hts'
      exact absurd hts' (by simp)
  · intro hts
    rcases doAddKeyFrame_spec (run (initState p) ops) tim with
      ⟨hts', _⟩ | ⟨_, hok, hc, _⟩
    · rw [hts] at hts'
      exact absurd hts' (by simp)
    · refine ⟨hok, ?_, hc⟩
      intro hin
      exact absurd (h1 _ hin) (lt_irrefl _)

/-! ## Claim C8 — append-only graph -/

theorem AppendOnlyLe_refl (s : SLAM_state) : AppendOnlyLe s s :=
  ⟨le_refl _, List.prefix_rfl, le_refl _,
   fun _ f hf => ⟨f, hf, rfl, List.prefix_rfl⟩⟩

theorem AppendOnlyLe_trans {a b c : SLAM_state} (h1 : AppendOnlyLe a b)
    (h2 : AppendOnlyLe b c) : AppendOnlyLe a c := by
  refine ⟨le_trans h1.1 h2.1, h1.2.1.trans h2.2.1,
    le_trans h1.2.2.1 h2.2.2.1, ?_⟩
  intro i f hf
  obtain ⟨f', hf', hk', hp'⟩ := h1.2.2.2 i f hf
  obtain ⟨f'', hf'', hk'', hp''⟩ := h2.2.2.2 i f' hf'
  exact ⟨f'', hf'', by rw [hk'', hk'], hp'.trans hp''⟩

theorem AppendOnlyLe_extend {s s' : SLAM_state}
    (hcom : s'.committed = s.committed)
    (hnf : ∃ fs, s'.newfactors = s.newfactors ++ fs)
    (hck : ∃ cs, s'.created_kfs = s.created_kfs ++ cs) :
    AppendOnlyLe s s' := by
  obtain ⟨fs, hnf⟩ := hnf
  obtain ⟨cs, hck⟩ := hck
  refine ⟨?_, ?_, ?_, ?_⟩
  · unfold totalFactors allFactors
    rw [hcom, hnf]
    simp only [List.length_append]
    omega
  · rw [hck]
    exact List.prefix_append _ _
  · rw [hcom]
  · intro i f hf
    rw [hcom]
    exact ⟨f, hf, rfl, List.prefix_rfl⟩

theorem step_AppendOnlyLe (s : SLAM_state) (op : Op) :
    AppendOnlyLe s (step s op) := by
  cases op with
  | addKeyFrame tim =>
    show AppendOnlyLe s (doAddKeyFrame s tim).2
    rcases doAddKeyFrame_spec s tim with
      ⟨_, heq⟩ | ⟨_, _, hc, _, _, hcom, _, hnf⟩
    · rw [heq]
      exact AppendOnlyLe_refl s
    · exact AppendOnlyLe_extend hcom hnf ⟨_, hc⟩
  | addRelFactor a b noise =>
    show AppendOnlyLe s (addFactorRelativePose s a b noise).2
    unfold addFactorRelativePose
    split
    · exact AppendOnlyLe_extend rfl ⟨_, rfl⟩ ⟨[], (List.append_nil _).symm⟩
    · exact AppendOnlyLe_refl s
  | addDynFactor a b dt =>
    show AppendOnlyLe s (addFactorDynamicsConstVel s a b dt).2
    unfold addFactorDynamicsConstVel
    split
    · split
      · exact AppendOnlyLe_refl s
      · exact AppendOnlyLe_extend rfl ⟨_, rfl⟩ ⟨[], (List.append_nil _).symm⟩
    · exact AppendOnlyLe_refl s
  | addSmart k =>
    exact AppendOnlyLe_extend rfl ⟨_, rfl⟩ ⟨[], (List.append_nil _).symm⟩
  | smartObs j k =>
    show AppendOnlyLe s (smartObserveCommitted s j k)
    unfold smartObserveCommitted
    split
    · rename_i f hj
      split
      · refine ⟨?_, List.prefix_rfl, ?_, ?_⟩
        · unfold totalFactors allFactors
          dsimp only
          rw [List.length_append, List.length_append, List.length_set]
        · dsimp only
          rw [List.length_set]
        · intro i f0 hf0
          dsimp only
          by_cases hij : j = i
          · subst hij
            have hjlt : j < s.committed.length :=
              (List.getElem?_eq_some.mp hj).1
            have hff : f0 = f := by
              rw [hj] at hf0
              injection hf0 with h3
              exact h3.symm
            subst hff
            rw [List.getElem?_set_self hjlt]
            exact ⟨_, rfl, rfl, List.prefix_append _ _⟩
          · rw [List.getElem?_set_ne hij]
            exact ⟨f0, hf0, rfl, List.prefix_rfl⟩
      · exact AppendOnlyLe_refl s
    · exact AppendOnlyLe_refl s
  | advertise l =>
    exact AppendOnlyLe_extend rfl ⟨[], (List.append_nil _).symm⟩
      ⟨[], (List.append_nil _).symm⟩
  | commit r =>
    show AppendOnlyLe s (spinOnce s r).2
    unfold spinOnce
    split
    · exact AppendOnlyLe_refl s
    · cases r with
      | none => exact AppendOnlyLe_refl s
      | some vals =>
        refine ⟨?_, List.prefix_rfl, ?_, ?_⟩
        · unfold totalFactors allFactors
          dsimp only
          simp only [List.length_append, List.length_nil]
          omega
        · dsimp only
          rw [List.length_append]
          exact Nat.le_add_right _ _
        · intro i f hf
          dsimp only
          have hi : i < s.committed.length := (List.getElem?_eq_some.mp hf).1
          rw [List.getElem?_append, if_pos hi]
          exact ⟨f, hf, rfl, List.prefix_rfl⟩

theorem run_AppendOnlyLe (s : SLAM_state) (ops : List Op) :
    AppendOnlyLe s (run s ops) := by
  induction ops generalizing s with
  | nil => exact AppendOnlyLe_refl s
  | cons op rest ih =>
    exact AppendOnlyLe_trans (step_AppendOnlyLe s op) (ih (step s op))

/-- Claim C8: for every sequence of API calls, the total number of factors
in the graph never decreases, no keyframe is ever deleted (the created list
only extends), and every factor already incorporated in the solver graph
keeps its slot and kind while its set of referenced variables never shrinks
(the old key list is a prefix of the new one). -/
theorem C8_append_only_graph (s : SLAM_state) (ops : List Op) :
    totalFactors s ≤ totalFactors (run s ops) ∧
    s.created_kfs <+: (run s ops).created_kfs ∧
    s.committed.length ≤ (run s ops).committed.length ∧
    (∀ (i : Nat) (f : GFactor), s.committed[i]? = some f →
      ∃ f' : GFactor, (run s ops).committed[i]? = some f' ∧
        f'.kind = f.kind ∧ f.keys <+: f'.keys) :=
  run_AppendOnlyLe s ops

/-! ## Claim C4 — gauge fixing -/

theorem mem_set_of_ne {α : Type} {l : List α} {j : Nat} {g x : α}
    (hx : x ∈ l) (hne : ∀ y, l[j]? = some y → x ≠ y) : x ∈ l.set j g := by
  induction l generalizing j with
  | nil => exact absurd hx (List.not_mem_nil x)
  | cons y rest ih =>
    cases j with
    | zero =>
      rcases List.mem_cons.mp hx with hE | hE
      · exact absurd hE (hne y List.getElem?_cons_zero)
      · rw [List.set_cons_zero]
        exact List.mem_cons_of_mem g hE
    | succ n =>
      rw [List.set_cons_succ]
      rcases List.mem_cons.mp hx with hE | hE
      · rw [hE]
        exact List.mem_cons_self y _
      · refine List.mem_cons_of_mem y (ih hE ?_)
        intro y0 hy0
        refine hne y0 ?_
        rw [List.getElem?_cons_succ]
        exact hy0

theorem mem_allFactors_extend {s s' : SLAM_state}
    (hcom : s'.committed = s.committed)
    (hnf : ∃ fs, s'.newfactors = s.newfactors ++ fs)
    {f : GFactor} (hf : f ∈ allFactors s) : f ∈ allFactors s' := by
  obtain ⟨fs, hnf⟩ := hnf
  unfold allFactors at hf ⊢
  rw [hcom, hnf]
  rcases List.mem_append.mp hf with h | h
  · exact List.mem_append_left _ h
  · exact List.mem_append_right _ (List.mem_append_left _ h)

theorem step_params (s : SLAM_state) (op : Op) :
    (step s op).params = s.params := by
  cases op with
  | addKeyFrame tim =>
    rcases doAddKeyFrame_spec s tim with ⟨_, heq⟩ | ⟨_, _, _, _, _, _, hp, _⟩
    · show (doAddKeyFrame s tim).2.params = s.params
      rw [heq]
    · exact hp
  | addRelFactor a b noise =>
    show (addFactorRelativePose s a b noise).2.params = s.params
    unfold addFactorRelativePose
    split <;> rfl
  | addDynFactor a b dt =>
    show (addFactorDynamicsConstVel s a b dt).2.params = s.params
    unfold addFactorDynamicsConstVel
    split
    · split <;> rfl
    · rfl
  | addSmart k => rfl
  | smartObs j k =>
    show (smartObserveCommitted s j k).params = s.params
    unfold smartObserveCommitted
    split
    · split <;> rfl
    · rfl
  | advertise l => rfl
  | commit r =>
    show (spinOnce s r).2.params = s.params
    unfold spinOnce
    split
    · rfl
    · cases r <;> rfl

theorem run_params (s : SLAM_state) (ops : List Op) :
    (run s ops).params = s.params := by
  induction ops generalizing s with
  | nil => rfl
  | cons op rest ih =>
    show (run (step s op) rest).params = s.params
    rw [ih (step s op), step_params]

theorem step_root_stable (s : SLAM_state) (op : Op) (x : Nat)
    (hx : s.root_kf_id = some x) : (step s op).root_kf_id = some x := by
  cases op with
  | addKeyFrame tim =>
    show (doAddKeyFrame s tim).2.root_kf_id = some x
    unfold doAddKeyFrame
    by_cases hts : tsIncreasing s tim = false
    · rw [if_pos hts]
      exact hx
    · rw [if_neg hts]
      have hnone : ¬(s.root_kf_id.isNone = true) := by
        rw [hx]
        simp
      rw [if_neg hnone]
      exact hx
  | addRelFactor a b noise =>
    show (addFactorRelativePose s a b noise).2.root_kf_id = some x
    unfold addFactorRelativePose
    split <;> exact hx
  | addDynFactor a b dt =>
    show (addFactorDynamicsConstVel s a b dt).2.root_kf_id = some x
    unfold addFactorDynamicsConstVel
    split
    · split <;> exact hx
    · exact hx
  | addSmart k => exact hx
  | smartObs j k =>
    show (smartObserveCommitted s j k).root_kf_id = some x
    unfold smartObserveCommitted
    split
    · split <;> exact hx
    · exact hx
  | advertise l => exact hx
  | commit r =>
    show (spinOnce s r).2.root_kf_id = some x
    unfold spinOnce
    split
    · exact hx
    · cases r <;> exact hx

theorem run_root_stable (s : SLAM_state) (ops : List Op) (x : Nat)
    (hx : s.root_kf_id = some x) : (run s ops).root_kf_id = some x := by
  induction ops generalizing s with
  | nil => exact hx
  | cons op rest ih => exact ih (step s op) (step_root_stable s op x hx)

theorem step_factor_persists (s : SLAM_state) (op : Op) :
    ∀ f : GFactor, f ∈ allFactors s → f.kind ≠ .smartStereo →
      f ∈ allFactors (step s op) := by
  intro f hf hk
  cases op with
  | addKeyFrame tim =>
    rcases doAddKeyFrame_spec s tim with
      ⟨_, heq⟩ | ⟨_, _, _, _, _, hcom, _, hnf⟩
    · show f ∈ allFactors (doAddKeyFrame s tim).2
      rw [heq]
      exact hf
    · exact mem_allFactors_extend hcom hnf hf
  | addRelFactor a b noise =>
    show f ∈ allFactors (addFactorRelativePose s a b noise).2
    unfold addFactorRelativePose
    split
    · refine mem_allFactors_extend ?_
        ⟨[⟨.relativePose, [poseKey a, poseKey b], noise⟩], ?_⟩ hf <;> rfl
    · exact hf
  | addDynFactor a b dt =>
    show f ∈ allFactors (addFactorDynamicsConstVel s a b dt).2
    unfold addFactorDynamicsConstVel
    split
    · split
      · exact hf
      · refine mem_allFactors_extend ?_
          ⟨[⟨.dynamicsConstVel, [poseKey a, velKey a, poseKey b, velKey b],
            [s.params.const_vel_model_std_pos * dt,
             s.params.const_vel_model_std_vel * dt]⟩], ?_⟩ hf <;> rfl
    · exact hf
  | addSmart k =>
    refine mem_allFactors_extend ?_ ⟨[⟨.smartStereo, [k], []⟩], ?_⟩ hf <;> rfl
  | smartObs j k =>
    show f ∈ allFactors (smartObserveCommitted s j k)
    unfold smartObserveCommitted
    split
    · rename_i f0 hj
      split
      · rename_i hsm
        unfold allFactors at hf ⊢
        dsimp only
        rcases List.mem_append.mp hf with hmem | hmem
        · refine List.mem_append_left _ (mem_set_of_ne hmem ?_)
          intro y hy
          rw [hj] at hy
          injection hy with hy
          subst hy
          intro hEq
          exact hk (by rw [hEq]; exact hsm)
        · exact List.mem_append_right _ hmem
      · exact hf
    · exact hf
  | advertise l => exact hf
  | commit r =>
    show f ∈ allFactors (spinOnce s r).2
    unfold spinOnce
    split
    · exact hf
    · cases r with
      | none => exact hf
      | some vals =>
        unfold allFactors at hf ⊢
        dsimp only
        rw [List.append_nil]
        exact hf

theorem RootOk_presv {s s' : SLAM_state}
    (hck : s'.created_kfs = s.created_kfs)
    (hroot : s'.root_kf_id = s.root_kf_id)
    (hparams : s'.params = s.params)
    (hmem : ∀ f : GFactor, f ∈ allFactors s → f.kind ≠ .smartStereo →
      f ∈ allFactors s')
    (h : RootOk s) : RootOk s' := by
  obtain ⟨h1, h2⟩ := h
  constructor
  · rw [hck, hroot]
    exact h1
  · intro id0 hh
    rw [hck] at hh
    obtain ⟨hr, ⟨f, hf, hfk, hfkeys⟩, hvel⟩ := h2 id0 hh
    refine ⟨by rw [hroot]; exact hr,
      ⟨f, hmem f hf (by rw [hfk]; decide), hfk, hfkeys⟩, ?_⟩
    intro hv
    rw [hparams] at hv
    obtain ⟨g, hg, hgk, hgkeys⟩ := hvel hv
    exact ⟨g, hmem g hg (by rw [hgk]; decide), hgk, hgkeys⟩

theorem step_RootOk (s : SLAM_state) (op : Op) (h : RootOk s) :
    RootOk (step s op) := by
  cases op with
  | addKeyFrame tim =>
    show RootOk (doAddKeyFrame s tim).2
    unfold doAddKeyFrame
    by_cases hts : tsIncreasing s tim = false
    · rw [if_pos hts]
      exact h
    · rw [if_neg hts]
      by_cases hroot : s.root_kf_id.isNone = true
      · rw [if_pos hroot]
        have hrn : s.root_kf_id = none := Option.isNone_iff_eq_none.mp hroot
        have hc0 : s.created_kfs = [] := h.1.mpr hrn
        dsimp only [SLAM_state.updateLastCreatedKF]
        constructor
        · simp
        · intro id0 hh
          rw [hc0] at hh
          simp only [List.nil_append, List.head?_cons] at hh
          injection hh with hid
          subst hid
          refine ⟨rfl, ?_, ?_⟩
          · refine ⟨⟨.priorPose, [poseKey s.next_kf_id], [1/1000]⟩, ?_,
              rfl, rfl⟩
            unfold allFactors
            dsimp only
            refine List.mem_append_right _ (List.mem_append_left _ ?_)
            exact List.mem_append_right _ (List.mem_singleton.mpr rfl)
          · intro hv
            refine ⟨⟨.priorVel, [velKey s.next_kf_id], [1/2]⟩, ?_, rfl, rfl⟩
            unfold allFactors
            dsimp only
            rw [if_pos hv]
            refine List.mem_append_right _ ?_
            exact List.mem_append_right _ (List.mem_singleton.mpr rfl)
      · rw [if_neg hroot]
        have hrs : s.root_kf_id ≠ none := fun hE =>
          hroot (Option.isNone_iff_eq_none.mpr hE)
        obtain ⟨h1, h2⟩ := h
        dsimp only [SLAM_state.updateLastCreatedKF]
        constructor
        · constructor
          · intro hE
            simp at hE
          · intro hE
            exact absurd hE hrs
        · intro id0 hh
          cases hcs : s.created_kfs with
          | nil => exact absurd (h1.mp hcs) hrs
          | cons c rest =>
            rw [hcs, List.cons_append, List.head?_cons] at hh
            injection hh with hid
            subst hid
            obtain ⟨hr, hfp, hfv⟩ := h2 c (by rw [hcs]; rfl)
            exact ⟨hr, hfp, hfv⟩
  | addRelFactor a b noise =>
    refine RootOk_presv ?_ ?_ (step_params s (.addRelFactor a b noise))
      (step_factor_persists s (.addRelFactor a b noise)) h
    · show (addFactorRelativePose s a b noise).2.created_kfs = s.created_kfs
      unfold addFactorRelativePose
      split <;> rfl
    · show (addFactorRelativePose s a b noise).2.root_kf_id = s.root_kf_id
      unfold addFactorRelativePose
      split <;> rfl
  | addDynFactor a b dt =>
    refine RootOk_presv ?_ ?_ (step_params s (.addDynFactor a b dt))
      (step_factor_persists s (.addDynFactor a b dt)) h
    · show (addFactorDynamicsConstVel s a b dt).2.created_kfs = s.created_kfs
      unfold addFactorDynamicsConstVel
      split
      · split <;> rfl
      · rfl
    · show (addFactorDynamicsConstVel s a b dt).2.root_kf_id = s.root_kf_id
      unfold addFactorDynamicsConstVel
      split
      · split <;> rfl
      · rfl
  | addSmart k =>
    refine RootOk_presv ?_ ?_ (step_params s (.addSmart k))
      (step_factor_persists s (.addSmart k)) h <;> rfl
  | smartObs j k =>
    refine RootOk_presv ?_ ?_ (step_params s (.smartObs j k))
      (step_factor_persists s (.smartObs j k)) h
    · show (smartObserveCommitted s j k).created_kfs = s.created_kfs
      unfold smartObserveCommitted
      split
      · split <;> rfl
      · rfl
    · show (smartObserveCommitted s j k).root_kf_id = s.root_kf_id
      unfold smartObserveCommitted
      split
      · split <;> rfl
      · rfl
  | advertise l =>
    refine RootOk_presv ?_ ?_ (step_params s (.advertise l))
      (step_factor_persists s (.advertise l)) h <;> rfl
  | commit r =>
    refine RootOk_presv ?_ ?_ (step_params s (.commit r))
      (step_factor_persists s (.commit r)) h
    · show (spinOnce s r).2.created_kfs = s.created_kfs
      unfold spinOnce
      split
      · rfl
      · cases r <;> rfl
    · show (spinOnce s r).2.root_kf_id = s.root_kf_id
      unfold spinOnce
      split
      · rfl
      · cases r <;> rfl

theorem initState_RootOk (p : Parameters) : RootOk (initState p) := by
  constructor
  · simp [initState]
  · intro id0 hh
    simp [initState] at hh

theorem run_RootOk (p : Parameters) (ops : List Op) :
    RootOk (run (initState p) ops) := by
  suffices h : ∀ s : SLAM_state, RootOk s → RootOk (run s ops) from
    h (initState p) (initState_RootOk p)
  induction ops with
  | nil => intro s hs; exact hs
  | cons op rest ih =>
    intro s hs
    exact ih (step s op) (step_RootOk s op hs)

/-- Claim C4: in every session the first keyframe created becomes the root
and receives an absolute prior factor (and, in pose+velocity mode, also a
velocity prior); exactly one root exists — before any keyframe the root id
is unset, and once `root_kf_id` is assigned it never changes under any
further sequence of calls. -/
theorem C4_gauge_fixing (p : Parameters) (ops more : List Op) (x : Nat) :
    ((run (initState p) ops).created_kfs = [] →
      (run (initState p) ops).root_kf_id = none) ∧
    (∀ id0, (run (initState p) ops).created_kfs.head? = some id0 →
      (run (initState p) ops).root_kf_id = some id0 ∧
      (∃ f ∈ allFactors (run (initState p) ops),
        f.kind = .priorPose ∧ f.keys = [poseKey id0]) ∧
      (p.state_vector.hasVelocity = true →
        ∃ f ∈ allFactors (run (initState p) ops),
          f.kind = .priorVel ∧ f.keys = [velKey id0])) ∧
    ((run (initState p) ops).root_kf_id = some x →
      (run (run (initState p) ops) more).root_kf_id = some x) := by
  obtain ⟨h1, h2⟩ := run_RootOk p ops
  refine ⟨h1.mp, ?_, ?_⟩
  · intro id0 hh
    obtain ⟨hr, hfp, hfv⟩ := h2 id0 hh
    refine ⟨hr, hfp, ?_⟩
    intro hv
    refine hfv ?_
    rw [run_params]
    exact hv
  · intro hr
    exact run_root_stable (run (initState p) ops) more x hr

end MolaSlamGtsam
